import Mathlib

/-!
# Verification of the `subcmd` sub-command dispatch library

Shallow embedding of the two variants of the library that the specification
covers:

* `Subcmd.Nested` — the recursive variant (`subcmd.go`): a `Command` carries
  either a handler (`Do`) or a nested list of sub-commands (`SubCommands`),
  and `run` validates each sibling list and recurses through matched groups.
* `Subcmd.Flat` — the flat `Runner` variant: a `Command` carries only an
  optional handler, `New` validates names, and `Runner.Run` dispatches a
  single level with a `flag.ErrorHandling`-style policy.

Handlers are opaque in the source (`func(args []string)`); they are modelled
by numeric identifiers, with `none` standing for a nil Go function value.
Side effects (printing usage, `os.Exit`, `panic`) are reified into outcome
types: each constructor records which observable action the Go code performs.
-/

namespace Subcmd

/-- The reserved help tokens (the `helpWords` map in both source files). -/
def helpWords : List String := ["help", "-h", "-help", "--help"]

/-- Go `%q` on a command name: the name wrapped in double quotes. -/
def goQuote (s : String) : String := "\"" ++ s ++ "\""

/-- Go map lookup over an association list in which newer insertions are
consed at the front, so the first hit is the most recent insertion; this
matches Go's overwrite-on-insert map semantics. -/
def mapLookup {β : Type} (k : String) : List (String × β) → Option β
  | [] => none
  | (k', v) :: rest => if k' = k then some v else mapLookup k rest

namespace Nested

/-- `Command` from `subcmd.go`: `Do` is a nilable handler (modelled by an
optional identifier) and `SubCommands` is a nilable slice of commands
(`none` models the nil slice, `some []` a non-nil empty slice). -/
inductive Command where
  | mk (name : String) (description : String)
      (doFn : Option Nat) (subCommands : Option (List Command))

/-- The `Name` field. -/
def Command.name : Command → String
  | .mk n _ _ _ => n

/-- The `Description` field. -/
def Command.description : Command → String
  | .mk _ d _ _ => d

/-- The `Do` field (`none` = nil function). -/
def Command.doFn : Command → Option Nat
  | .mk _ _ f _ => f

/-- The `SubCommands` field (`none` = nil slice). -/
def Command.subCommands : Command → Option (List Command)
  | .mk _ _ _ s => s

/-- The validation loop at the start of `run`: builds `byName` (leaf
handlers) and `subCmdByName` (groups), panicking on a reserved name, on a
name already present in `byName`, or on a command with neither or both of
`Do`/`SubCommands`.  An `Except.error` is a panic with the given message. -/
def buildMaps : List Command → List (String × Nat) → List (String × List Command) →
    Except String (List (String × Nat) × List (String × List Command))
  | [], byName, subCmdByName => .ok (byName, subCmdByName)
  | cmd :: rest, byName, subCmdByName =>
    if helpWords.contains cmd.name then
      .error ("subcmd: cannot name a command " ++ goQuote cmd.name)
    else if (mapLookup cmd.name byName).isSome then
      .error ("subcmd: duplicate command " ++ goQuote cmd.name ++ " given to Run")
    else if cmd.doFn.isSome = cmd.subCommands.isSome then
      .error ("subcmd: need to assign either Do or SubCommands in command " ++
        goQuote cmd.name)
    else
      match cmd.doFn with
      | some h => buildMaps rest ((cmd.name, h) :: byName) subCmdByName
      | none => buildMaps rest byName ((cmd.name, cmd.subCommands.getD []) :: subCmdByName)

/-- Observable outcome of `run`: a panic, a `usageExit` (the `Usage` hook is
invoked on the given sibling list and index, then `os.Exit status`), or a
handler invocation with the residual arguments. -/
inductive RunOutcome where
  | panicked (msg : String)
  | usageExit (cmds : List Command) (checkingIndex : Nat) (status : Nat)
  | invoked (handler : Nat) (args : List String)

/-- `run` from `subcmd.go`.  `args` plays the role of the Go `args` slice
whose element 0 is the program/parent name and whose element 1 is the first
positional token at this level; the recursion drops one element per matched
group, exactly as `run(subCmds, checkingIndex+1, args[1:])` does.  The Go
code runs the validation loop before looking at `args`, so every branch
first checks `buildMaps`. -/
def run : List Command → Nat → List String → RunOutcome
  | cmds, checkingIndex, [] =>
    match buildMaps cmds [] [] with
    | .error msg => .panicked msg
    | .ok _ => .usageExit cmds checkingIndex 1
  | cmds, checkingIndex, [_] =>
    match buildMaps cmds [] [] with
    | .error msg => .panicked msg
    | .ok _ => .usageExit cmds checkingIndex 1
  | cmds, checkingIndex, _ :: a1 :: rest =>
    match buildMaps cmds [] [] with
    | .error msg => .panicked msg
    | .ok maps =>
      if helpWords.contains a1 then
        .usageExit cmds checkingIndex 0
      else
        match mapLookup a1 maps.2 with
        | some subCmds => run subCmds (checkingIndex + 1) (a1 :: rest)
        | none =>
          match mapLookup a1 maps.1 with
          | some h => .invoked h rest
          | none => .usageExit cmds checkingIndex 1

/-- Spec-level validity of one command (§3): the name is not a reserved help
token and the command is a tagged variant, holding exactly one of `Do` and
`SubCommands`. -/
def validCmd (c : Command) : Prop :=
  helpWords.contains c.name = false ∧ c.doFn.isSome ≠ c.subCommands.isSome

/-- Spec-level validity of one sibling list (§3 Registry invariants): every
command is valid and sibling names are pairwise distinct. -/
def validLevel (cmds : List Command) : Prop :=
  (∀ c ∈ cmds, validCmd c) ∧ (cmds.map Command.name).Nodup

instance (c : Command) : Decidable (validCmd c) := by
  unfold validCmd
  infer_instance

instance (cmds : List Command) : Decidable (validLevel cmds) := by
  unfold validLevel
  infer_instance

/-- A chain of group names rooted at a valid level: each element of `path`
names a group command at the current level, and the descent continues into
that group's sub-list, each visited level being valid. -/
def validPath : List Command → List String → Prop
  | cmds, [] => validLevel cmds
  | cmds, nm :: path =>
    validLevel cmds ∧
      ∃ g ∈ cmds, g.name = nm ∧ ∃ S, g.subCommands = some S ∧ validPath S path

end Nested

namespace Flat

/-- `Command` from the flat `Runner` variant: name, description, and a
nilable handler. -/
structure Command where
  name : String
  description : String
  doFn : Option Nat
deriving DecidableEq

/-- `flag.ContinueOnError`. -/
def continueOnError : Int := 0

/-- `flag.ExitOnError`. -/
def exitOnError : Int := 1

/-- `flag.PanicOnError`. -/
def panicOnError : Int := 2

/-- A `Runner`: the command list and the `flag.ErrorHandling` value (a Go
int).  The overridable `Usage` field only affects what text a usage action
prints, never control flow, so it is abstracted out of the state. -/
structure Runner where
  cmds : List Command
  errorHandling : Int
deriving DecidableEq

/-- The distinguishable error values `Runner.Run` can produce:
`errors.New("subcmd: no sub-command provided")`, the sentinel `ErrHelp`, and
`fmt.Errorf("subcmd: no such command %q", tok)`. -/
inductive RError where
  | noSubCommand
  | errHelp
  | noSuchCommand (tok : String)
deriving DecidableEq

/-- Observable outcome of `Runner.Run`:
* `invoked h rest` — handler `h` was called with `rest` and `Run` returned nil;
* `invokedNil rest` — the matched command's `Do` was a nil function, so the
  call faults at dispatch time (a Go runtime panic);
* `returnedErr e` — `Run` returned the error `e` without printing or exiting;
* `usageExit s` — `r.Usage()` was invoked, then `os.Exit s`;
* `panickedErr e` — `panic(err)` under `flag.PanicOnError`;
* `panicked msg` — `panicf` (construction faults and the bad-policy default). -/
inductive RunResult where
  | invoked (handler : Nat) (args : List String)
  | invokedNil (args : List String)
  | returnedErr (e : RError)
  | usageExit (status : Nat)
  | panickedErr (e : RError)
  | panicked (msg : String)
deriving DecidableEq

/-- The validation loop of `New`: the `names` set is the list of names seen
so far; returns the panic message, if any. -/
def checkNames : List Command → List String → Option String
  | [], _ => none
  | cmd :: rest, seen =>
    if helpWords.contains cmd.name then
      some ("subcmd: cannot name a command " ++ goQuote cmd.name)
    else if seen.contains cmd.name then
      some ("subcmd: duplicate command " ++ goQuote cmd.name ++ " given to Run")
    else checkNames rest (cmd.name :: seen)

/-- `New` from the flat variant: validates the names and otherwise stores the
command list and policy unchanged.  An `Except.error` is a panic; the `name`
argument only feeds the default usage text. -/
def New (name : String) (cmds : List Command) (errorHandling : Int) :
    Except String Runner :=
  match checkNames cmds [] with
  | some msg => .error msg
  | none => .ok { cmds := cmds, errorHandling := errorHandling }

/-- `errorExit`: dispatches the error according to the policy.  Under
`flag.ExitOnError` the usage hook always runs, then the exit status is 0 for
`ErrHelp` and 2 otherwise; any value outside the three `flag` constants hits
the `default` branch and panics. -/
def errorExit (r : Runner) (err : RError) : RunResult :=
  if r.errorHandling = continueOnError then .returnedErr err
  else if r.errorHandling = panicOnError then .panickedErr err
  else if r.errorHandling = exitOnError then
    if err = .errHelp then .usageExit 0 else .usageExit 2
  else .panicked ("subcmd: bad ErrorHandling value " ++ toString r.errorHandling)

/-- The dispatch loop of `Runner.Run`: the first command whose `Name` equals
the token. -/
def findCmd (tok : String) : List Command → Option Command
  | [] => none
  | c :: rest => if c.name = tok then some c else findCmd tok rest

/-- `Runner.Run` from the flat variant. -/
def Runner.Run (r : Runner) (args : List String) : RunResult :=
  match args with
  | [] => errorExit r .noSubCommand
  | a0 :: rest =>
    if helpWords.contains a0 then errorExit r .errHelp
    else
      match findCmd a0 r.cmds with
      | some c =>
        match c.doFn with
        | some h => .invoked h rest
        | none => .invokedNil rest
      | none => errorExit r (.noSuchCommand a0)

end Flat

end Subcmd

namespace Subcmd

namespace Nested

theorem mapLookup_cons {β : Type} (k k' : String) (v : β) (l : List (String × β)) :
    mapLookup k ((k', v) :: l) = if k' = k then some v else mapLookup k l := rfl

theorem mapLookup_nil {β : Type} (k : String) : mapLookup (β := β) k [] = none := rfl

/-- Lookups of a name carried by no command in the list pass through
`buildMaps` unchanged. -/
theorem buildMaps_lookup_frozen (k : String) (cmds : List Command) :
    ∀ bn0 sn0 bn sn,
      buildMaps cmds bn0 sn0 = .ok (bn, sn) →
      (∀ c ∈ cmds, c.name ≠ k) →
      mapLookup k bn = mapLookup k bn0 ∧ mapLookup k sn = mapLookup k sn0 := by
  induction cmds with
  | nil =>
    intro bn0 sn0 bn sn hok _
    simp only [buildMaps, Except.ok.injEq, Prod.mk.injEq] at hok
    rw [hok.1, hok.2]
    exact ⟨rfl, rfl⟩
  | cons c rest ih =>
    intro bn0 sn0 bn sn hok hk
    have hck : c.name ≠ k := hk c (List.mem_cons_self ..)
    simp only [buildMaps] at hok
    split_ifs at hok
    cases hdo : c.doFn with
    | some h =>
      rw [hdo] at hok
      have := ih ((c.name, h) :: bn0) sn0 bn sn hok
        (fun c' hc' => hk c' (List.mem_cons_of_mem _ hc'))
      rw [this.1, this.2, mapLookup_cons, if_neg hck]
      exact ⟨rfl, rfl⟩
    | none =>
      rw [hdo] at hok
      have := ih bn0 ((c.name, c.subCommands.getD []) :: sn0) bn sn hok
        (fun c' hc' => hk c' (List.mem_cons_of_mem _ hc'))
      rw [this.1, this.2, mapLookup_cons, if_neg hck]
      exact ⟨rfl, rfl⟩

/-- On a spec-valid sibling list the validation loop succeeds, provided no
command's name is already a key of the incoming leaf map. -/
theorem buildMaps_ok (cmds : List Command) :
    ∀ bn0 sn0,
      (∀ c ∈ cmds, validCmd c) →
      (cmds.map Command.name).Nodup →
      (∀ c ∈ cmds, mapLookup c.name bn0 = none) →
      ∃ bn sn, buildMaps cmds bn0 sn0 = .ok (bn, sn) := by
  induction cmds with
  | nil =>
    intro bn0 sn0 _ _ _
    exact ⟨bn0, sn0, rfl⟩
  | cons c rest ih =>
    intro bn0 sn0 hv hnd hdisj
    obtain ⟨hch, hcx⟩ := hv c (List.mem_cons_self ..)
    have hcd : mapLookup c.name bn0 = none := hdisj c (List.mem_cons_self ..)
    have hnotin : c.name ∉ rest.map Command.name := (List.nodup_cons.mp hnd).1
    have hne : ∀ c' ∈ rest, c'.name ≠ c.name := by
      intro c' hc' h
      exact hnotin (h ▸ List.mem_map_of_mem Command.name hc')
    simp only [buildMaps, hch, Bool.false_eq_true, if_false, hcd, Option.isSome_none,
      if_neg hcx]
    cases hdo : c.doFn with
    | some h =>
      exact ih ((c.name, h) :: bn0) sn0 (fun c' hc' => hv c' (List.mem_cons_of_mem _ hc'))
        (List.nodup_cons.mp hnd).2
        (fun c' hc' => by
          rw [mapLookup_cons, if_neg (Ne.symm (hne c' hc')),
            hdisj c' (List.mem_cons_of_mem _ hc')])
    | none =>
      exact ih bn0 ((c.name, c.subCommands.getD []) :: sn0)
        (fun c' hc' => hv c' (List.mem_cons_of_mem _ hc'))
        (List.nodup_cons.mp hnd).2
        (fun c' hc' => hdisj c' (List.mem_cons_of_mem _ hc'))

/-- After a successful validation loop over a duplicate-free list, a group
command's name maps to its sub-list in `subCmdByName` and is absent from the
new entries of `byName`. -/
theorem buildMaps_lookup_group (cmds : List Command) :
    ∀ bn0 sn0 bn sn (g : Command) (S : List Command),
      buildMaps cmds bn0 sn0 = .ok (bn, sn) →
      g ∈ cmds → g.subCommands = some S →
      (cmds.map Command.name).Nodup →
      mapLookup g.name sn = some S ∧ mapLookup g.name bn = mapLookup g.name bn0 := by
  induction cmds with
  | nil =>
    intro bn0 sn0 bn sn g S _ hg
    exact absurd hg (List.not_mem_nil g)
  | cons c rest ih =>
    intro bn0 sn0 bn sn g S hok hg hS hnd
    have hnotin : c.name ∉ rest.map Command.name := (List.nodup_cons.mp hnd).1
    have hne : ∀ c' ∈ rest, c'.name ≠ c.name := by
      intro c' hc' h
      exact hnotin (h ▸ List.mem_map_of_mem Command.name hc')
    simp only [buildMaps] at hok
    split_ifs at hok with h1 h2 h3
    rcases List.mem_cons.mp hg with rfl | hgr
    · have hdo : g.doFn = none := by
        cases hdo' : g.doFn with
        | none => rfl
        | some h =>
          exact absurd (by rw [hdo', hS]; rfl) h3
      rw [hdo] at hok
      have hfro := buildMaps_lookup_frozen g.name rest _ _ _ _ hok
        (fun c' hc' => hne c' hc')
      refine ⟨?_, hfro.1⟩
      rw [hfro.2, hS, mapLookup_cons]
      simp
    · have hcg : c.name ≠ g.name := fun h =>
        hnotin (h ▸ List.mem_map_of_mem Command.name hgr)
      cases hdo : c.doFn with
      | some h =>
        rw [hdo] at hok
        have := ih ((c.name, h) :: bn0) sn0 bn sn g S hok hgr hS (List.nodup_cons.mp hnd).2
        refine ⟨this.1, ?_⟩
        rw [this.2, mapLookup_cons, if_neg hcg]
      | none =>
        rw [hdo] at hok
        have := ih bn0 ((c.name, c.subCommands.getD []) :: sn0) bn sn g S hok hgr hS
          (List.nodup_cons.mp hnd).2
        exact this

/-- After a successful validation loop over a duplicate-free list, a leaf
command's name maps to its handler in `byName` and is absent from the new
entries of `subCmdByName`. -/
theorem buildMaps_lookup_leaf (cmds : List Command) :
    ∀ bn0 sn0 bn sn (x : Command) (h : Nat),
      buildMaps cmds bn0 sn0 = .ok (bn, sn) →
      x ∈ cmds → x.doFn = some h →
      (cmds.map Command.name).Nodup →
      mapLookup x.name bn = some h ∧ mapLookup x.name sn = mapLookup x.name sn0 := by
  induction cmds with
  | nil =>
    intro bn0 sn0 bn sn x h _ hx
    exact absurd hx (List.not_mem_nil x)
  | cons c rest ih =>
    intro bn0 sn0 bn sn x h hok hx hdo hnd
    have hnotin : c.name ∉ rest.map Command.name := (List.nodup_cons.mp hnd).1
    have hne : ∀ c' ∈ rest, c'.name ≠ c.name := by
      intro c' hc' h'
      exact hnotin (h' ▸ List.mem_map_of_mem Command.name hc')
    simp only [buildMaps] at hok
    split_ifs at hok with h1 h2 h3
    rcases List.mem_cons.mp hx with rfl | hxr
    · rw [hdo] at hok
      have hfro := buildMaps_lookup_frozen x.name rest _ _ _ _ hok
        (fun c' hc' => hne c' hc')
      refine ⟨?_, hfro.2⟩
      rw [hfro.1, mapLookup_cons]
      simp
    · have hcx : c.name ≠ x.name := fun h' =>
        hnotin (h' ▸ List.mem_map_of_mem Command.name hxr)
      cases hdo' : c.doFn with
      | some h' =>
        rw [hdo'] at hok
        have := ih ((c.name, h') :: bn0) sn0 bn sn x h hok hxr hdo
          (List.nodup_cons.mp hnd).2
        refine ⟨this.1, this.2⟩
      | none =>
        rw [hdo'] at hok
        have := ih bn0 ((c.name, c.subCommands.getD []) :: sn0) bn sn x h hok hxr hdo
          (List.nodup_cons.mp hnd).2
        refine ⟨this.1, ?_⟩
        rw [this.2, mapLookup_cons, if_neg hcx]

/-- If any command of the list is named by a reserved help token, the
validation loop faults, whatever the accumulators. -/
theorem buildMaps_error_of_help (cmds : List Command) :
    ∀ bn0 sn0, (∃ c ∈ cmds, helpWords.contains c.name = true) →
      ∃ msg, buildMaps cmds bn0 sn0 = .error msg := by
  induction cmds with
  | nil =>
    intro _ _ h
    simp at h
  | cons c rest ih =>
    intro bn0 sn0 h
    by_cases hc : c.name ∈ helpWords
    · exact ⟨"subcmd: cannot name a command " ++ goQuote c.name, by simp [buildMaps, hc]⟩
    · have hrest : ∃ c' ∈ rest, helpWords.contains c'.name = true := by
        rcases h with ⟨c', hc'', hh⟩
        rcases List.mem_cons.mp hc'' with rfl | hr
        · exact absurd (by simpa using hh) hc
        · exact ⟨c', hr, hh⟩
      by_cases hd : (mapLookup c.name bn0).isSome = true
      · exact ⟨"subcmd: duplicate command " ++ goQuote c.name ++ " given to Run",
          by simp [buildMaps, hc, hd]⟩
      · have hd' : (mapLookup c.name bn0).isSome = false := by simpa using hd
        by_cases hx : c.doFn.isSome = c.subCommands.isSome
        · exact ⟨"subcmd: need to assign either Do or SubCommands in command " ++
            goQuote c.name, by simp [buildMaps, hc, hd', hx]⟩
        · cases hdo : c.doFn with
          | some hf =>
            have hsub : c.subCommands.isSome = false := by
              cases hs : c.subCommands.isSome with
              | false => rfl
              | true => exact absurd (by simp [hdo, hs]) hx
            obtain ⟨msg, hm⟩ := ih ((c.name, hf) :: bn0) sn0 hrest
            exact ⟨msg, by simp [buildMaps, hc, hd', hdo, hsub, hm]⟩
          | none =>
            have hsub : c.subCommands.isSome = true := by
              cases hs : c.subCommands.isSome with
              | true => rfl
              | false => exact absurd (by simp [hdo, hs]) hx
            obtain ⟨msg, hm⟩ := ih bn0 ((c.name, c.subCommands.getD []) :: sn0) hrest
            exact ⟨msg, by simp [buildMaps, hc, hd', hdo, hsub, hm]⟩

/-- When the level's validation loop faults, `run` panics with that message
whatever the argument vector: the loop runs before `args` is inspected. -/
theorem run_panicked_of_error (cmds : List Command) (ci : Nat) (args : List String)
    (msg : String) (he : buildMaps cmds [] [] = .error msg) :
    run cmds ci args = .panicked msg := by
  rcases args with _ | ⟨p, _ | ⟨a1, rest⟩⟩ <;> simp [run, he]

/-- An empty argument vector yields the status-1 usage exit at this level. -/
theorem run_nil (cmds : List Command) (ci : Nat) (bn : List (String × Nat))
    (sn : List (String × List Command)) (hok : buildMaps cmds [] [] = .ok (bn, sn)) :
    run cmds ci [] = .usageExit cmds ci 1 := by
  simp [run, hok]

/-- An argument vector holding only the program name yields the status-1
usage exit at this level. -/
theorem run_one (cmds : List Command) (ci : Nat) (p : String)
    (bn : List (String × Nat)) (sn : List (String × List Command))
    (hok : buildMaps cmds [] [] = .ok (bn, sn)) :
    run cmds ci [p] = .usageExit cmds ci 1 := by
  simp [run, hok]

/-- A reserved help token as the first positional argument yields the
status-0 usage exit before any lookup. -/
theorem run_help (cmds : List Command) (ci : Nat) (p w : String)
    (rest : List String) (bn : List (String × Nat))
    (sn : List (String × List Command))
    (hok : buildMaps cmds [] [] = .ok (bn, sn))
    (hw : helpWords.contains w = true) :
    run cmds ci (p :: w :: rest) = .usageExit cmds ci 0 := by
  have hwm : w ∈ helpWords := by simpa using hw
  simp [run, hok, hwm]

/-- Matching a group's name recurses into its sub-list with the argument
vector advanced by one. -/
theorem run_group_step (cmds : List Command) (ci : Nat) (p : String)
    (rest : List String) (g : Command) (S : List Command)
    (hv : validLevel cmds) (hg : g ∈ cmds) (hS : g.subCommands = some S) :
    run cmds ci (p :: g.name :: rest) = run S (ci + 1) (g.name :: rest) := by
  obtain ⟨bn, sn, hok⟩ := buildMaps_ok cmds [] [] hv.1 hv.2 (fun _ _ => rfl)
  have hlg := buildMaps_lookup_group cmds [] [] bn sn g S hok hg hS hv.2
  have hw : g.name ∉ helpWords := by simpa using (hv.1 g hg).1
  simp [run, hok, hw, hlg.1]

/-- Matching a leaf's name invokes its handler with the residual arguments. -/
theorem run_leaf_step (cmds : List Command) (ci : Nat) (p : String)
    (rest : List String) (x : Command) (h : Nat)
    (hv : validLevel cmds) (hx : x ∈ cmds) (hdo : x.doFn = some h) :
    run cmds ci (p :: x.name :: rest) = .invoked h rest := by
  obtain ⟨bn, sn, hok⟩ := buildMaps_ok cmds [] [] hv.1 hv.2 (fun _ _ => rfl)
  have hll := buildMaps_lookup_leaf cmds [] [] bn sn x h hok hx hdo hv.2
  have hw : x.name ∉ helpWords := by simpa using (hv.1 x hx).1
  have hsn : mapLookup x.name sn = none := by rw [hll.2]; rfl
  simp [run, hok, hw, hsn, hll.1]

/-- A non-help first positional token equal to no registered name yields the
status-1 usage exit. -/
theorem run_unknown (cmds : List Command) (ci : Nat) (p w : String)
    (rest : List String) (hv : validLevel cmds)
    (hw : helpWords.contains w = false)
    (hnm : ∀ c ∈ cmds, c.name ≠ w) :
    run cmds ci (p :: w :: rest) = .usageExit cmds ci 1 := by
  obtain ⟨bn, sn, hok⟩ := buildMaps_ok cmds [] [] hv.1 hv.2 (fun _ _ => rfl)
  have hfro := buildMaps_lookup_frozen w cmds [] [] bn sn hok hnm
  have hwm : w ∉ helpWords := by simpa using hw
  have hbn : mapLookup w bn = none := by rw [hfro.1]; rfl
  have hsn : mapLookup w sn = none := by rw [hfro.2]; rfl
  simp [run, hok, hwm, hbn, hsn]

end Nested

namespace Flat

/-- On a list with no reserved and no duplicated name, `New`'s validation
loop accepts, provided the incoming `seen` set avoids the list's names. -/
theorem checkNames_eq_none (cmds : List Command) :
    ∀ seen,
      (∀ c ∈ cmds, helpWords.contains c.name = false) →
      (cmds.map Command.name).Nodup →
      (∀ c ∈ cmds, seen.contains c.name = false) →
      checkNames cmds seen = none := by
  induction cmds with
  | nil => intro _ _ _ _; rfl
  | cons c rest ih =>
    intro seen hv hnd hdisj
    have hch := hv c (List.mem_cons_self ..)
    have hcd := hdisj c (List.mem_cons_self ..)
    have hnotin : c.name ∉ rest.map Command.name := (List.nodup_cons.mp hnd).1
    have hne : ∀ c' ∈ rest, c'.name ≠ c.name := by
      intro c' hc' h
      exact hnotin (h ▸ List.mem_map_of_mem Command.name hc')
    simp only [checkNames, hch, Bool.false_eq_true, if_false, hcd]
    exact ih (c.name :: seen) (fun c' hc' => hv c' (List.mem_cons_of_mem _ hc'))
      (List.nodup_cons.mp hnd).2
      (fun c' hc' => by
        have h1 : c'.name ∉ seen := by
          simpa using hdisj c' (List.mem_cons_of_mem _ hc')
        simp [hne c' hc', h1])

/-- If any command of the list is named by a reserved help token, `New`'s
validation loop faults, whatever has been seen already. -/
theorem checkNames_some_of_help (cmds : List Command) :
    ∀ seen, (∃ c ∈ cmds, helpWords.contains c.name = true) →
      ∃ msg, checkNames cmds seen = some msg := by
  induction cmds with
  | nil =>
    intro _ h
    simp at h
  | cons c rest ih =>
    intro seen h
    by_cases hc : c.name ∈ helpWords
    · exact ⟨"subcmd: cannot name a command " ++ goQuote c.name, by simp [checkNames, hc]⟩
    · have hrest : ∃ c' ∈ rest, helpWords.contains c'.name = true := by
        rcases h with ⟨c', hc'', hh⟩
        rcases List.mem_cons.mp hc'' with rfl | hr
        · exact absurd (by simpa using hh) hc
        · exact ⟨c', hr, hh⟩
      by_cases hd : c.name ∈ seen
      · exact ⟨"subcmd: duplicate command " ++ goQuote c.name ++ " given to Run",
          by simp [checkNames, hc, hd]⟩
      · obtain ⟨msg, hm⟩ := ih (c.name :: seen) hrest
        exact ⟨msg, by simp [checkNames, hc, hd, hm]⟩

/-- A token equal to no command name finds nothing in the dispatch loop. -/
theorem findCmd_eq_none (w : String) (cmds : List Command)
    (h : ∀ c ∈ cmds, c.name ≠ w) : findCmd w cmds = none := by
  induction cmds with
  | nil => rfl
  | cons c rest ih =>
    simp only [findCmd, if_neg (h c (List.mem_cons_self ..))]
    exact ih (fun c' hc' => h c' (List.mem_cons_of_mem _ hc'))

end Flat

/-- C1 (code bug): in the recursive variant the duplicate check consults only
the `byName` leaf map, so two sibling commands both named `g` — the first a
group, the second a leaf — do not panic; construction succeeds and dispatch
proceeds into the group, invoking handler `0` of its leaf `a`.  `Run`'s own
documentation promises a panic whenever two commands share a name. -/
theorem c1_duplicate_group_undetected :
    Nested.run
        [Nested.Command.mk "g" "" none (some [Nested.Command.mk "a" "" (some 0) none]),
          Nested.Command.mk "g" "" (some 1) none]
        1 ["prog", "g", "a", "-x"]
      = .invoked 0 ["-x"] := rfl

/-- C2 (counterexample): under the exit-on-error policy (`flag.ExitOnError`)
the flat `Runner` variant terminates with exit status 2, not 1, on an empty
argument vector — refuting the claimed status-1 exit. -/
theorem c2_exit_status_counterexample :
    Flat.New "prog" [⟨"x", "", some 0⟩] Flat.exitOnError
        = .ok { cmds := [⟨"x", "", some 0⟩], errorHandling := Flat.exitOnError } ∧
      Flat.Runner.Run { cmds := [⟨"x", "", some 0⟩], errorHandling := Flat.exitOnError } []
        = .usageExit 2 ∧
      Flat.RunResult.usageExit 2 ≠ Flat.RunResult.usageExit 1 :=
  ⟨rfl, rfl, by decide⟩

/-- C2 (amended): under the exit-on-error policy the flat `Runner` variant
prints usage and exits with status 2 on an empty argument vector and on an
unknown first token, and with status 0 on a help word; the recursive variant
(whose exit behaviour is hardwired) uses status 1 for the missing and
unknown cases and 0 for help. -/
theorem c2_exit_policy_statuses (cmds : List Flat.Command) (w : String)
    (rest : List String) (rcmds : List Nested.Command) (ci : Nat) (p : String) :
    (Flat.Runner.Run { cmds := cmds, errorHandling := Flat.exitOnError } []
      = .usageExit 2) ∧
    (helpWords.contains w = false → Flat.findCmd w cmds = none →
      Flat.Runner.Run { cmds := cmds, errorHandling := Flat.exitOnError } (w :: rest)
        = .usageExit 2) ∧
    (helpWords.contains w = true →
      Flat.Runner.Run { cmds := cmds, errorHandling := Flat.exitOnError } (w :: rest)
        = .usageExit 0) ∧
    (Nested.validLevel rcmds →
      Nested.run rcmds ci [p] = .usageExit rcmds ci 1 ∧
      (helpWords.contains w = true →
        Nested.run rcmds ci (p :: w :: rest) = .usageExit rcmds ci 0) ∧
      (helpWords.contains w = false → (∀ c ∈ rcmds, c.name ≠ w) →
        Nested.run rcmds ci (p :: w :: rest) = .usageExit rcmds ci 1)) := by
  refine ⟨rfl, ?_, ?_, ?_⟩
  · intro hw hf
    have hwm : w ∉ helpWords := by simpa using hw
    simp [Flat.Runner.Run, Flat.errorExit, Flat.continueOnError, Flat.exitOnError,
      Flat.panicOnError, hwm, hf]
  · intro hw
    have hwm : w ∈ helpWords := by simpa using hw
    simp [Flat.Runner.Run, Flat.errorExit, Flat.continueOnError, Flat.exitOnError,
      Flat.panicOnError, hwm]
  · intro hv
    obtain ⟨bn, sn, hok⟩ := Nested.buildMaps_ok rcmds [] [] hv.1 hv.2 (fun _ _ => rfl)
    refine ⟨Nested.run_one rcmds ci p bn sn hok, ?_, ?_⟩
    · intro hw
      exact Nested.run_help rcmds ci p w rest bn sn hok hw
    · intro hw hnm
      exact Nested.run_unknown rcmds ci p w rest hv hw hnm

/-- C2 (witness for the amended theorem). -/
theorem c2_exit_policy_statuses_witness :
    (helpWords.contains "zzz" = false ∧
      Flat.findCmd "zzz" [⟨"x", "", some 0⟩] = none ∧
      Flat.Runner.Run { cmds := [⟨"x", "", some 0⟩], errorHandling := Flat.exitOnError }
        ["zzz"] = .usageExit 2) ∧
    (helpWords.contains "-h" = true ∧
      Flat.Runner.Run { cmds := [⟨"x", "", some 0⟩], errorHandling := Flat.exitOnError }
        ["-h"] = .usageExit 0) ∧
    (Nested.validLevel [Nested.Command.mk "x" "" (some 0) none] ∧
      Nested.run [Nested.Command.mk "x" "" (some 0) none] 1 ["prog"]
        = .usageExit [Nested.Command.mk "x" "" (some 0) none] 1 1) :=
  ⟨⟨by decide, by decide,
      (c2_exit_policy_statuses [⟨"x", "", some 0⟩] "zzz" []
        [Nested.Command.mk "x" "" (some 0) none] 1 "prog").2.1 (by decide) (by decide)⟩,
    ⟨by decide,
      (c2_exit_policy_statuses [⟨"x", "", some 0⟩] "-h" []
        [Nested.Command.mk "x" "" (some 0) none] 1 "prog").2.2.1 (by decide)⟩,
    ⟨by decide,
      ((c2_exit_policy_statuses [⟨"x", "", some 0⟩] "-h" []
        [Nested.Command.mk "x" "" (some 0) none] 1 "prog").2.2.2 (by decide)).1⟩⟩

/-- C3 (counterexample): a tree whose nested group holds a command named by
the reserved token `help` — a configuration fault by the spec — is not
detected at startup: with first token `zzz` the run completes with a usage
exit and never panics, because nested sibling lists are validated only when
dispatch recurses into them. -/
theorem c3_nested_fault_undetected :
    Nested.run
        [Nested.Command.mk "g" "" none (some [Nested.Command.mk "help" "" (some 0) none])]
        1 ["prog", "zzz"]
      = .usageExit
          [Nested.Command.mk "g" "" none (some [Nested.Command.mk "help" "" (some 0) none])]
          1 1 ∧
    ∀ msg,
      Nested.run
          [Nested.Command.mk "g" "" none (some [Nested.Command.mk "help" "" (some 0) none])]
          1 ["prog", "zzz"]
        ≠ .panicked msg :=
  ⟨rfl, fun msg h =>
    Nested.RunOutcome.noConfusion
      (show Nested.RunOutcome.usageExit
          [Nested.Command.mk "g" "" none (some [Nested.Command.mk "help" "" (some 0) none])]
          1 1 = .panicked msg from h)⟩

/-- C3 (amended): configuration faults panic independently of the policy and
of the argument vector — but only for the sibling list at the dispatch level
being entered: the recursive variant panics for every argument vector when
the current level's validation loop faults, and the flat `New` panics for
every policy value when its name check faults.  (Faults inside nested groups
are detected only when dispatch recurses into them.) -/
theorem c3_fault_policy_independent (cmds : List Nested.Command)
    (fcmds : List Flat.Command) (msg fmsg nm : String) :
    (Nested.buildMaps cmds [] [] = .error msg →
      ∀ (ci : Nat) (args : List String), Nested.run cmds ci args = .panicked msg) ∧
    (Flat.checkNames fcmds [] = some fmsg →
      ∀ eh : Int, Flat.New nm fcmds eh = .error fmsg) := by
  constructor
  · intro he ci args
    exact Nested.run_panicked_of_error cmds ci args msg he
  · intro he eh
    simp [Flat.New, he]

/-- C3 (witness for the amended theorem). -/
theorem c3_fault_policy_independent_witness :
    (Nested.buildMaps [Nested.Command.mk "help" "" (some 0) none] [] []
        = .error ("subcmd: cannot name a command " ++ goQuote "help") ∧
      Nested.run [Nested.Command.mk "help" "" (some 0) none] 1 ["prog", "x"]
        = .panicked ("subcmd: cannot name a command " ++ goQuote "help")) ∧
    (Flat.checkNames [⟨"-h", "", some 0⟩] []
        = some ("subcmd: cannot name a command " ++ goQuote "-h") ∧
      Flat.New "prog" [⟨"-h", "", some 0⟩] 7
        = .error ("subcmd: cannot name a command " ++ goQuote "-h")) :=
  ⟨⟨rfl,
      (c3_fault_policy_independent [Nested.Command.mk "help" "" (some 0) none]
          [⟨"-h", "", some 0⟩] ("subcmd: cannot name a command " ++ goQuote "help")
          ("subcmd: cannot name a command " ++ goQuote "-h") "prog").1
        rfl 1 ["prog", "x"]⟩,
    ⟨rfl,
      (c3_fault_policy_independent [Nested.Command.mk "help" "" (some 0) none]
          [⟨"-h", "", some 0⟩] ("subcmd: cannot name a command " ++ goQuote "help")
          ("subcmd: cannot name a command " ++ goQuote "-h") "prog").2
        rfl 7⟩⟩

/-- C4: in a registry valid at the two relevant levels, with a root group `g`
holding a leaf `x`, the argument vector `g x …` dispatches through the group
and invokes `x`'s handler exactly on the residual arguments, producing no
usage outcome (the outcome is `invoked`, not `usageExit`). -/
theorem c4_recursive_descent (cmds S : List Nested.Command) (g x : Nested.Command)
    (h : Nat) (p : String) (rest : List String)
    (hv : Nested.validLevel cmds) (hvS : Nested.validLevel S)
    (hg : g ∈ cmds) (hS : g.subCommands = some S)
    (hx : x ∈ S) (hdo : x.doFn = some h) :
    Nested.run cmds 1 (p :: g.name :: x.name :: rest) = .invoked h rest := by
  rw [Nested.run_group_step cmds 1 p (x.name :: rest) g S hv hg hS]
  exact Nested.run_leaf_step S 2 g.name rest x h hvS hx hdo

/-- C4 (witness): the concrete registry `[g → [x]]` with the argument vector
`["g", "x", "--flag"]`. -/
theorem c4_recursive_descent_witness :
    Nested.run
        [Nested.Command.mk "g" "" none (some [Nested.Command.mk "x" "" (some 7) none])]
        1 ["prog", "g", "x", "--flag"]
      = .invoked 7 ["--flag"] :=
  c4_recursive_descent
    [Nested.Command.mk "g" "" none (some [Nested.Command.mk "x" "" (some 7) none])]
    [Nested.Command.mk "x" "" (some 7) none]
    (Nested.Command.mk "g" "" none (some [Nested.Command.mk "x" "" (some 7) none]))
    (Nested.Command.mk "x" "" (some 7) none) 7 "prog" ["--flag"]
    (by decide) (by decide) (by simp) rfl (by simp) rfl

/-- C5: a reserved help word as the first unconsumed positional token always
yields the help outcome and never reaches a handler: in the recursive
variant, after descending any chain of valid group levels, the outcome is a
status-0 usage exit at that level; in the flat variant the outcome is the
sentinel `ErrHelp` under continue-on-error and a status-0 usage exit under
exit-on-error. -/
theorem c5_help_short_circuit (w : String) (hw : helpWords.contains w = true) :
    (∀ (path : List String) (cmds : List Nested.Command) (ci : Nat) (p : String)
        (rest : List String), Nested.validPath cmds path →
        ∃ lvl, Nested.run cmds ci (p :: (path ++ w :: rest))
          = .usageExit lvl (ci + path.length) 0) ∧
    (∀ (cmds : List Flat.Command) (rest : List String),
      Flat.Runner.Run { cmds := cmds, errorHandling := Flat.continueOnError } (w :: rest)
        = .returnedErr .errHelp ∧
      Flat.Runner.Run { cmds := cmds, errorHandling := Flat.exitOnError } (w :: rest)
        = .usageExit 0) := by
  constructor
  · intro path
    induction path with
    | nil =>
      intro cmds ci p rest hv
      obtain ⟨bn, sn, hok⟩ := Nested.buildMaps_ok cmds [] [] hv.1 hv.2 (fun _ _ => rfl)
      exact ⟨cmds, by simpa using Nested.run_help cmds ci p w rest bn sn hok hw⟩
    | cons nm path ih =>
      intro cmds ci p rest hv
      obtain ⟨hvl, g, hg, hnm, S, hS, hvp⟩ := hv
      obtain ⟨lvl, hlvl⟩ := ih S (ci + 1) nm rest hvp
      refine ⟨lvl, ?_⟩
      have hstep := Nested.run_group_step cmds ci p (path ++ w :: rest) g S hvl hg hS
      rw [hnm] at hstep
      simp only [List.cons_append, List.length_cons]
      rw [hstep, hlvl]
      congr 1
      omega
  · intro cmds rest
    have hwm : w ∈ helpWords := by simpa using hw
    constructor
    · simp [Flat.Runner.Run, Flat.errorExit, Flat.continueOnError, Flat.exitOnError,
        Flat.panicOnError, hwm]
    · simp [Flat.Runner.Run, Flat.errorExit, Flat.continueOnError, Flat.exitOnError,
        Flat.panicOnError, hwm]

/-- C5 (witness): the help word `help` one group level down, and at the top
of a flat runner under both policies. -/
theorem c5_help_short_circuit_witness :
    (∃ lvl, Nested.run
        [Nested.Command.mk "g" "" none (some [Nested.Command.mk "x" "" (some 7) none])]
        1 ("prog" :: (["g"] ++ "help" :: ["t"]))
      = .usageExit lvl (1 + ["g"].length) 0) ∧
    (Flat.Runner.Run { cmds := [⟨"x", "", some 0⟩], errorHandling := Flat.continueOnError }
        ("help" :: ["t"]) = .returnedErr .errHelp ∧
      Flat.Runner.Run { cmds := [⟨"x", "", some 0⟩], errorHandling := Flat.exitOnError }
        ("help" :: ["t"]) = .usageExit 0) :=
  ⟨(c5_help_short_circuit "help" (by decide)).1 ["g"]
      [Nested.Command.mk "g" "" none (some [Nested.Command.mk "x" "" (some 7) none])]
      1 "prog" ["t"]
      ⟨by decide,
        Nested.Command.mk "g" "" none (some [Nested.Command.mk "x" "" (some 7) none]),
        by simp, rfl, [Nested.Command.mk "x" "" (some 7) none], rfl,
        by unfold Nested.validPath; decide⟩,
    (c5_help_short_circuit "help" (by decide)).2 [⟨"x", "", some 0⟩] ["t"]⟩

/-- C6: under continue-on-error the flat runner returns a distinguishing
error value for each usage condition — without printing or exiting (the
outcome is `returnedErr`, not `usageExit`) — and a leaf match invokes the
handler and returns nil. -/
theorem c6_continue_on_error (cmds : List Flat.Command) (w : String)
    (rest : List String) :
    (Flat.Runner.Run { cmds := cmds, errorHandling := Flat.continueOnError } []
      = .returnedErr .noSubCommand) ∧
    (helpWords.contains w = true →
      Flat.Runner.Run { cmds := cmds, errorHandling := Flat.continueOnError } (w :: rest)
        = .returnedErr .errHelp) ∧
    (helpWords.contains w = false → Flat.findCmd w cmds = none →
      Flat.Runner.Run { cmds := cmds, errorHandling := Flat.continueOnError } (w :: rest)
        = .returnedErr (.noSuchCommand w)) ∧
    (∀ (c : Flat.Command) (h : Nat), helpWords.contains w = false →
      Flat.findCmd w cmds = some c → c.doFn = some h →
      Flat.Runner.Run { cmds := cmds, errorHandling := Flat.continueOnError } (w :: rest)
        = .invoked h rest) ∧
    (Flat.RError.noSubCommand ≠ .errHelp ∧
      Flat.RError.noSubCommand ≠ .noSuchCommand w ∧
      Flat.RError.errHelp ≠ .noSuchCommand w) := by
  refine ⟨rfl, ?_, ?_, ?_, by decide, by simp, by simp⟩
  · intro hw
    have hwm : w ∈ helpWords := by simpa using hw
    simp [Flat.Runner.Run, Flat.errorExit, Flat.continueOnError, hwm]
  · intro hw hf
    have hwm : w ∉ helpWords := by simpa using hw
    simp [Flat.Runner.Run, Flat.errorExit, Flat.continueOnError, hwm, hf]
  · intro c h hw hf hdo
    have hwm : w ∉ helpWords := by simpa using hw
    simp [Flat.Runner.Run, hwm, hf, hdo]

/-- C6 (witness). -/
theorem c6_continue_on_error_witness :
    (Flat.Runner.Run { cmds := [⟨"x", "", some 3⟩], errorHandling := Flat.continueOnError }
      [] = .returnedErr .noSubCommand) ∧
    (Flat.Runner.Run { cmds := [⟨"x", "", some 3⟩], errorHandling := Flat.continueOnError }
      ["--help", "y"] = .returnedErr .errHelp) ∧
    (Flat.Runner.Run { cmds := [⟨"x", "", some 3⟩], errorHandling := Flat.continueOnError }
      ["zzz", "y"] = .returnedErr (.noSuchCommand "zzz")) ∧
    (Flat.Runner.Run { cmds := [⟨"x", "", some 3⟩], errorHandling := Flat.continueOnError }
      ["x", "y"] = .invoked 3 ["y"]) :=
  ⟨(c6_continue_on_error [⟨"x", "", some 3⟩] "--help" ["y"]).1,
    (c6_continue_on_error [⟨"x", "", some 3⟩] "--help" ["y"]).2.1 (by decide),
    (c6_continue_on_error [⟨"x", "", some 3⟩] "zzz" ["y"]).2.2.1 (by decide) (by decide),
    (c6_continue_on_error [⟨"x", "", some 3⟩] "x" ["y"]).2.2.2.1 ⟨"x", "", some 3⟩ 3
      (by decide) (by decide) rfl⟩

/-- C7: the first positional token selects a command exactly when it equals a
registered name character for character: in both variants a non-help token
equal to no registered name yields the unknown-command outcome, and a token
equal to a registered name dispatches to that command. -/
theorem c7_exact_match (w : String) (hw : helpWords.contains w = false) :
    (∀ (cmds : List Flat.Command) (eh : Int) (rest : List String),
      (∀ c ∈ cmds, c.name ≠ w) →
      Flat.Runner.Run { cmds := cmds, errorHandling := eh } (w :: rest)
        = Flat.errorExit { cmds := cmds, errorHandling := eh } (.noSuchCommand w)) ∧
    (∀ (cmds : List Flat.Command) (c : Flat.Command) (h : Nat) (eh : Int)
        (rest : List String),
      Flat.findCmd w cmds = some c → c.doFn = some h →
      Flat.Runner.Run { cmds := cmds, errorHandling := eh } (w :: rest)
        = .invoked h rest) ∧
    (∀ (cmds : List Nested.Command) (ci : Nat) (p : String) (rest : List String),
      Nested.validLevel cmds → (∀ c ∈ cmds, c.name ≠ w) →
      Nested.run cmds ci (p :: w :: rest) = .usageExit cmds ci 1) ∧
    (∀ (cmds : List Nested.Command) (x : Nested.Command) (h : Nat) (ci : Nat)
        (p : String) (rest : List String),
      Nested.validLevel cmds → x ∈ cmds → x.name = w → x.doFn = some h →
      Nested.run cmds ci (p :: w :: rest) = .invoked h rest) := by
  have hwm : w ∉ helpWords := by simpa using hw
  refine ⟨?_, ?_, ?_, ?_⟩
  · intro cmds eh rest hnm
    simp [Flat.Runner.Run, hwm, Flat.findCmd_eq_none w cmds hnm]
  · intro cmds c h eh rest hf hdo
    simp [Flat.Runner.Run, hwm, hf, hdo]
  · intro cmds ci p rest hv hnm
    exact Nested.run_unknown cmds ci p w rest hv hw hnm
  · intro cmds x h ci p rest hv hx hxw hdo
    rw [← hxw]
    exact Nested.run_leaf_step cmds ci p rest x h hv hx hdo

/-- C7 (witness): the token `fo`, a strict prefix of the registered name
`foo`, misses in both variants; the full name `foo` matches. -/
theorem c7_exact_match_witness :
    (Flat.Runner.Run { cmds := [⟨"foo", "", some 4⟩], errorHandling := Flat.exitOnError }
        ["fo"]
      = Flat.errorExit { cmds := [⟨"foo", "", some 4⟩], errorHandling := Flat.exitOnError }
          (.noSuchCommand "fo")) ∧
    (Flat.Runner.Run { cmds := [⟨"foo", "", some 4⟩], errorHandling := Flat.exitOnError }
        ["foo", "z"] = .invoked 4 ["z"]) ∧
    (Nested.run [Nested.Command.mk "foo" "" (some 4) none] 1 ["prog", "fo"]
      = .usageExit [Nested.Command.mk "foo" "" (some 4) none] 1 1) ∧
    (Nested.run [Nested.Command.mk "foo" "" (some 4) none] 1 ["prog", "foo", "z"]
      = .invoked 4 ["z"]) :=
  ⟨(c7_exact_match "fo" (by decide)).1 [⟨"foo", "", some 4⟩] Flat.exitOnError []
      (by decide),
    (c7_exact_match "foo" (by decide)).2.1 [⟨"foo", "", some 4⟩] ⟨"foo", "", some 4⟩ 4
      Flat.exitOnError ["z"] (by decide) rfl,
    (c7_exact_match "fo" (by decide)).2.2.1 [Nested.Command.mk "foo" "" (some 4) none]
      1 "prog" [] (by decide) (by decide),
    (c7_exact_match "foo" (by decide)).2.2.2 [Nested.Command.mk "foo" "" (some 4) none]
      (Nested.Command.mk "foo" "" (some 4) none) 4 1 "prog" ["z"] (by decide) (by simp)
      rfl rfl⟩

/-- C8: a command named by a reserved help word makes registry construction
fault in both variants — the recursive variant's `run` panics for every
argument vector, and the flat `New` errors for every policy — so every
successfully constructed flat runner holds no help-named command. -/
theorem c8_reserved_names_fault (cmdsN : List Nested.Command)
    (cmdsF : List Flat.Command) :
    ((∃ c ∈ cmdsN, helpWords.contains c.name = true) →
      ∀ (ci : Nat) (args : List String), ∃ msg, Nested.run cmdsN ci args = .panicked msg) ∧
    ((∃ c ∈ cmdsF, helpWords.contains c.name = true) →
      ∀ (nm : String) (eh : Int), ∃ msg, Flat.New nm cmdsF eh = .error msg) ∧
    (∀ (nm : String) (eh : Int) (r : Flat.Runner), Flat.New nm cmdsF eh = .ok r →
      ∀ c ∈ r.cmds, helpWords.contains c.name = false) := by
  refine ⟨?_, ?_, ?_⟩
  · intro hhelp ci args
    obtain ⟨msg, he⟩ := Nested.buildMaps_error_of_help cmdsN [] [] hhelp
    exact ⟨msg, Nested.run_panicked_of_error cmdsN ci args msg he⟩
  · intro hhelp nm eh
    obtain ⟨msg, hm⟩ := Flat.checkNames_some_of_help cmdsF [] hhelp
    exact ⟨msg, by simp [Flat.New, hm]⟩
  · intro nm eh r hok c hc
    have hcmds : r.cmds = cmdsF := by
      unfold Flat.New at hok
      rcases hchk : Flat.checkNames cmdsF [] with _ | msg
      · rw [hchk] at hok
        cases hok
        rfl
      · rw [hchk] at hok
        cases hok
    by_contra hfalse
    have htrue : helpWords.contains c.name = true := by
      simpa using hfalse
    obtain ⟨msg, hm⟩ := Flat.checkNames_some_of_help cmdsF []
      ⟨c, hcmds ▸ hc, htrue⟩
    unfold Flat.New at hok
    rw [hm] at hok
    cases hok

/-- C8 (witness): a list holding a command named `--help`. -/
theorem c8_reserved_names_fault_witness :
    (∃ msg, Nested.run [Nested.Command.mk "--help" "" (some 0) none] 5 ["p", "q"]
      = .panicked msg) ∧
    (∃ msg, Flat.New "prog" [⟨"--help", "", some 0⟩] Flat.panicOnError = .error msg) :=
  ⟨(c8_reserved_names_fault [Nested.Command.mk "--help" "" (some 0) none]
        [⟨"--help", "", some 0⟩]).1
      ⟨Nested.Command.mk "--help" "" (some 0) none, by simp, by decide⟩ 5 ["p", "q"],
    (c8_reserved_names_fault [Nested.Command.mk "--help" "" (some 0) none]
        [⟨"--help", "", some 0⟩]).2.1
      ⟨⟨"--help", "", some 0⟩, by simp, by decide⟩ "prog" Flat.panicOnError⟩

/-- C9: the flat `New` checks only names, so it accepts a command whose `Do`
is nil whenever the names are in order, and a `Run` whose first token matches
that command invokes the nil function — a runtime fault at dispatch time, not
at construction time. -/
theorem c9_nil_handler_dispatch_fault (nm : String) (cmds : List Flat.Command)
    (eh : Int) (c : Flat.Command) (w : String) (rest : List String)
    (hv : ∀ c' ∈ cmds, helpWords.contains c'.name = false)
    (hnd : (cmds.map Flat.Command.name).Nodup) :
    Flat.New nm cmds eh = .ok { cmds := cmds, errorHandling := eh } ∧
    (helpWords.contains w = false → Flat.findCmd w cmds = some c → c.doFn = none →
      Flat.Runner.Run { cmds := cmds, errorHandling := eh } (w :: rest)
        = .invokedNil rest) := by
  constructor
  · simp [Flat.New, Flat.checkNames_eq_none cmds [] hv hnd (fun _ _ => rfl)]
  · intro hw hf hdo
    have hwm : w ∉ helpWords := by simpa using hw
    simp [Flat.Runner.Run, hwm, hf, hdo]

/-- C9 (witness): a single command `x` with a nil handler. -/
theorem c9_nil_handler_dispatch_fault_witness :
    Flat.New "prog" [⟨"x", "", none⟩] Flat.exitOnError
        = .ok { cmds := [⟨"x", "", none⟩], errorHandling := Flat.exitOnError } ∧
      Flat.Runner.Run { cmds := [⟨"x", "", none⟩], errorHandling := Flat.exitOnError }
        ["x", "y"] = .invokedNil ["y"] :=
  ⟨(c9_nil_handler_dispatch_fault "prog" [⟨"x", "", none⟩] Flat.exitOnError
      ⟨"x", "", none⟩ "x" ["y"] (by decide) (by decide)).1,
    (c9_nil_handler_dispatch_fault "prog" [⟨"x", "", none⟩] Flat.exitOnError
      ⟨"x", "", none⟩ "x" ["y"] (by decide) (by decide)).2 (by decide) (by decide) rfl⟩

/-- C10: with an error-handling value outside the three `flag` constants,
every usage condition of the flat runner panics with the bad-value message,
while a leaf match still dispatches normally (`errorExit` is never reached
on a match). -/
theorem c10_bad_error_handling (eh : Int) (h0 : eh ≠ Flat.continueOnError)
    (h1 : eh ≠ Flat.exitOnError) (h2 : eh ≠ Flat.panicOnError)
    (cmds : List Flat.Command) (w : String) (rest : List String) :
    (Flat.Runner.Run { cmds := cmds, errorHandling := eh } []
      = .panicked ("subcmd: bad ErrorHandling value " ++ toString eh)) ∧
    (helpWords.contains w = true →
      Flat.Runner.Run { cmds := cmds, errorHandling := eh } (w :: rest)
        = .panicked ("subcmd: bad ErrorHandling value " ++ toString eh)) ∧
    (helpWords.contains w = false → Flat.findCmd w cmds = none →
      Flat.Runner.Run { cmds := cmds, errorHandling := eh } (w :: rest)
        = .panicked ("subcmd: bad ErrorHandling value " ++ toString eh)) ∧
    (∀ (c : Flat.Command) (hf : Nat), helpWords.contains w = false →
      Flat.findCmd w cmds = some c → c.doFn = some hf →
      Flat.Runner.Run { cmds := cmds, errorHandling := eh } (w :: rest)
        = .invoked hf rest) := by
  refine ⟨?_, ?_, ?_, ?_⟩
  · simp [Flat.Runner.Run, Flat.errorExit, h0, h1, h2]
  · intro hw
    have hwm : w ∈ helpWords := by simpa using hw
    simp [Flat.Runner.Run, Flat.errorExit, h0, h1, h2, hwm]
  · intro hw hf
    have hwm : w ∉ helpWords := by simpa using hw
    simp [Flat.Runner.Run, Flat.errorExit, h0, h1, h2, hwm, hf]
  · intro c hf hw hfind hdo
    have hwm : w ∉ helpWords := by simpa using hw
    simp [Flat.Runner.Run, hwm, hfind, hdo]

/-- C10 (witness): the out-of-range error-handling value 7. -/
theorem c10_bad_error_handling_witness :
    (Flat.Runner.Run { cmds := [⟨"x", "", some 2⟩], errorHandling := 7 } []
      = .panicked ("subcmd: bad ErrorHandling value " ++ toString (7 : Int))) ∧
    (Flat.Runner.Run { cmds := [⟨"x", "", some 2⟩], errorHandling := 7 } ["help"]
      = .panicked ("subcmd: bad ErrorHandling value " ++ toString (7 : Int))) ∧
    (Flat.Runner.Run { cmds := [⟨"x", "", some 2⟩], errorHandling := 7 } ["zzz"]
      = .panicked ("subcmd: bad ErrorHandling value " ++ toString (7 : Int))) ∧
    (Flat.Runner.Run { cmds := [⟨"x", "", some 2⟩], errorHandling := 7 } ["x", "y"]
      = .invoked 2 ["y"]) :=
  ⟨(c10_bad_error_handling 7 (by decide) (by decide) (by decide)
      [⟨"x", "", some 2⟩] "help" []).1,
    (c10_bad_error_handling 7 (by decide) (by decide) (by decide)
      [⟨"x", "", some 2⟩] "help" []).2.1 (by decide),
    (c10_bad_error_handling 7 (by decide) (by decide) (by decide)
      [⟨"x", "", some 2⟩] "zzz" []).2.2.1 (by decide) (by decide),
    (c10_bad_error_handling 7 (by decide) (by decide) (by decide)
      [⟨"x", "", some 2⟩] "x" ["y"]).2.2.2 ⟨"x", "", some 2⟩ 2 (by decide) (by decide) rfl⟩

end Subcmd
